import Mathlib

/-!
Verification of the Jira server-to-cloud automation migrator
(`main.py` and `generate-mappings.py`).

The program is a sequence of text-substitution passes over an automation-rule
JSON document, driven by an Excel lookup workbook and REST name-search
resolvers.  We embed the pure core of each pass: strings are lists of
characters, the Excel sheets are lists of `(A, B)` cell pairs (cells may be
empty), the remote resolvers are abstract functions from names to optional
cloud ids (or are modelled on the decoded HTTP response when the claim is
about a resolver itself), and Python's `str.replace` / `str.split` semantics
are reimplemented on `List Char`.
-/

set_option autoImplicit false

namespace Automig

/-- Strings as lists of characters, mirroring Python text manipulation. -/
abbrev Str := List Char

/-- Character-list contents of a Lean string literal. -/
def lit (s : String) : Str := s.data

/-- The double-quote character appended after ids in replacement templates. -/
def qc : Char := '"'

/-- Python whitespace test (restricted to the usual ASCII whitespace). -/
def isSpaceCh (c : Char) : Bool :=
  c = ' ' || c = '\t' || c = '\n' || c = '\r'

/-- Python `str.strip()`: drop leading and trailing whitespace. -/
def pyStrip (s : Str) : Str :=
  ((s.dropWhile isSpaceCh).reverse.dropWhile isSpaceCh).reverse

/-- Python `str(x)` applied to an optional cell value: `str(None) = "None"`. -/
def pyStr (v : Option Str) : Str :=
  match v with
  | some s => s
  | none => lit "None"

/-- Python truthiness of an optional string cell value. -/
def truthy (v : Option Str) : Bool :=
  match v with
  | some s => !s.isEmpty
  | none => false

/-- `leadsWith pat s` is true iff `pat` is a leading segment of `s`. -/
def leadsWith : Str → Str → Bool
  | [], _ => true
  | _ :: _, [] => false
  | a :: as, b :: bs => a = b && leadsWith as bs

/-- `occursIn pat s` is true iff `pat` occurs as a contiguous segment of `s`
(Python's `pat in s`). -/
def occursIn (pat : Str) : Str → Bool
  | [] => leadsWith pat []
  | c :: rest => leadsWith pat (c :: rest) || occursIn pat rest

/-- Split on the leftmost, non-overlapping occurrences of a separator,
Python `s.split(sep)` for a non-empty separator (for the unused empty
separator we return the whole string as a single piece). -/
def pySplit (sep : Str) (s : Str) : List Str :=
  if h : sep.isEmpty then [s]
  else
    match s with
    | [] => [[]]
    | c :: rest =>
      if leadsWith sep (c :: rest) then
        [] :: pySplit sep ((c :: rest).drop sep.length)
      else
        match pySplit sep rest with
        | [] => [[c]]
        | p :: ps => (c :: p) :: ps
termination_by s.length
decreasing_by
  · simp only [List.length_drop, List.length_cons]
    have hs : sep.length ≠ 0 := by
      simpa [List.isEmpty_iff_length_eq_zero] using h
    omega
  · simp only [List.length_cons]; omega

/-- Join pieces with a separator: `sep.join(pieces)` in Python. -/
def joinSep (sep : Str) : List Str → Str
  | [] => []
  | [x] => x
  | x :: y :: xs => x ++ sep ++ joinSep sep (y :: xs)

/-- Python `s.replace(a, b)` (replace all leftmost non-overlapping
occurrences), via `b.join(s.split(a))`. -/
def pyReplace (s a b : Str) : Str :=
  joinSep b (pySplit a s)

/-! ### Basic lemmas about the string utilities -/

theorem leadsWith_nil_elim {pat : Str} (h : leadsWith pat [] = true) : pat = [] := by
  cases pat with
  | nil => rfl
  | cons a as => simp [leadsWith] at h

theorem leadsWith_eq_append {pat s : Str} (h : leadsWith pat s = true) :
    s = pat ++ s.drop pat.length := by
  induction pat generalizing s with
  | nil => simp
  | cons a as ih =>
    cases s with
    | nil => simp [leadsWith] at h
    | cons b bs =>
      simp only [leadsWith, Bool.and_eq_true, decide_eq_true_eq] at h
      obtain ⟨rfl, h2⟩ := h
      simpa [List.drop] using ih h2

theorem leadsWith_append_more {pat u : Str} (v : Str) (h : leadsWith pat u = true) :
    leadsWith pat (u ++ v) = true := by
  induction pat generalizing u with
  | nil => simp [leadsWith]
  | cons a as ih =>
    cases u with
    | nil => simp [leadsWith] at h
    | cons b bs =>
      simp only [leadsWith, Bool.and_eq_true, decide_eq_true_eq] at h ⊢
      exact ⟨h.1, ih h.2⟩

theorem pySplit_ne_nil (sep s : Str) : pySplit sep s ≠ [] := by
  rw [pySplit.eq_def]
  split
  · simp
  · split
    · simp
    · split
      · simp
      · split <;> simp

/-- Bounded-recursion workhorse: the first piece of a split is a leading
segment of the input. -/
theorem pySplit_head_leads_aux (sep : Str) :
    ∀ (n : Nat) (s : Str), s.length ≤ n →
      ∀ p ps, pySplit sep s = p :: ps → ∃ t, s = p ++ t := by
  intro n
  induction n with
  | zero =>
    intro s hs p ps hsplit
    have hnil : s = [] := List.length_eq_zero.mp (Nat.le_zero.mp hs)
    subst hnil
    rw [pySplit.eq_def] at hsplit
    split at hsplit
    · obtain ⟨hp, _⟩ := List.cons.inj hsplit
      exact ⟨[], by simp [← hp]⟩
    · obtain ⟨hp, _⟩ := List.cons.inj hsplit
      exact ⟨[], by simp [← hp]⟩
  | succ n ih =>
    intro s hs p ps hsplit
    rw [pySplit.eq_def] at hsplit
    split at hsplit
    · obtain ⟨hp, _⟩ := List.cons.inj hsplit
      exact ⟨[], by simp [← hp]⟩
    · next hsep =>
      split at hsplit
      · obtain ⟨hp, _⟩ := List.cons.inj hsplit
        exact ⟨[], by simp [← hp]⟩
      · next c rest =>
        split at hsplit
        · obtain ⟨hp, _⟩ := List.cons.inj hsplit
          exact ⟨c :: rest, by simp [← hp]⟩
        · split at hsplit
          · next heq => exact absurd heq (pySplit_ne_nil sep rest)
          · next p0 ps0 heq =>
            obtain ⟨hp, _⟩ := List.cons.inj hsplit
            have hrest : rest.length ≤ n := by simpa using hs
            obtain ⟨t, ht⟩ := ih rest hrest p0 ps0 heq
            exact ⟨t, by simp [← hp, ht]⟩

/-- First piece of a split is a leading segment of the input. -/
theorem pySplit_head_leads (sep : Str) (s : Str) :
    ∀ p ps, pySplit sep s = p :: ps → ∃ t, s = p ++ t :=
  pySplit_head_leads_aux sep s.length s le_rfl

/-- Rebuilding the split with the separator gives back the input string. -/
theorem joinSep_pySplit (sep s : Str) : joinSep sep (pySplit sep s) = s := by
  rw [pySplit.eq_def]
  split
  · simp [joinSep]
  · next hne =>
    split
    · simp [joinSep]
    · next c rest =>
      split
      · next hld =>
        have ih := joinSep_pySplit sep ((c :: rest).drop sep.length)
        have hrec := pySplit_ne_nil sep ((c :: rest).drop sep.length)
        cases hps : pySplit sep ((c :: rest).drop sep.length) with
        | nil => exact absurd hps hrec
        | cons p ps =>
          rw [hps] at ih
          calc joinSep sep ([] :: p :: ps) = sep ++ joinSep sep (p :: ps) := by
                simp [joinSep]
            _ = sep ++ (c :: rest).drop sep.length := by rw [ih]
            _ = c :: rest := (leadsWith_eq_append hld).symm
      · next hld =>
        have ih := joinSep_pySplit sep rest
        cases hps : pySplit sep rest with
        | nil => exact absurd hps (pySplit_ne_nil sep rest)
        | cons p ps =>
          rw [hps] at ih
          cases ps with
          | nil => simpa [joinSep] using congrArg (c :: ·) ih
          | cons q qs =>
            simpa [joinSep] using congrArg (c :: ·) ih
termination_by s.length
decreasing_by
  all_goals
    rename_i hne2 c2 rest2 heq2 hld2
    subst heq2
    have hs : sep.length ≠ 0 := by
      simpa [List.isEmpty_iff_length_eq_zero] using hne2
    simp only [List.length_drop, List.length_cons]
    omega

/-- Bounded-recursion workhorse: no piece of the split contains an occurrence
of the separator. -/
theorem pySplit_no_occ_aux (sep : Str) (hsep : sep.isEmpty = false) :
    ∀ (n : Nat) (s : Str), s.length ≤ n →
      ∀ p ∈ pySplit sep s, occursIn sep p = false := by
  have hempty : ∀ q ∈ pySplit sep [], occursIn sep q = false := by
    intro q hq
    rw [pySplit.eq_def] at hq
    split at hq
    · simp_all
    · simp only [List.mem_singleton] at hq
      subst hq
      cases sep with
      | nil => simp at hsep
      | cons a as => simp [occursIn, leadsWith]
  intro n
  induction n with
  | zero =>
    intro s hs p hp
    have hnil : s = [] := List.length_eq_zero.mp (Nat.le_zero.mp hs)
    subst hnil
    exact hempty p hp
  | succ n ih =>
    intro s hs p hp
    rw [pySplit.eq_def] at hp
    split at hp
    · simp_all
    · split at hp
      · simp only [List.mem_singleton] at hp
        subst hp
        cases sep with
        | nil => simp at hsep
        | cons a as => simp [occursIn, leadsWith]
      · next c rest =>
        have hrest : rest.length ≤ n := by simpa using hs
        split at hp
        · next hld =>
          rcases List.mem_cons.mp hp with h | h
          · subst h
            cases sep with
            | nil => simp at hsep
            | cons a as => simp [occursIn, leadsWith]
          · have hdroplen : ((c :: rest).drop sep.length).length ≤ n := by
              have hs1 : sep.length ≠ 0 := by
                simpa [List.isEmpty_iff_length_eq_zero] using hsep
              simp only [List.length_drop, List.length_cons]
              omega
            exact ih ((c :: rest).drop sep.length) hdroplen p h
        · next hld =>
          split at hp
          · next heq => exact absurd heq (pySplit_ne_nil sep rest)
          · next p0 ps0 heq =>
            rcases List.mem_cons.mp hp with h | h
            · subst h
              have hp0 : occursIn sep p0 = false :=
                ih rest hrest p0 (heq ▸ List.mem_cons_self p0 ps0)
              have hhead : leadsWith sep (c :: p0) = false := by
                by_contra hcon
                rw [Bool.not_eq_false] at hcon
                obtain ⟨t, ht⟩ := pySplit_head_leads sep rest p0 ps0 heq
                have habs : leadsWith sep (c :: rest) = true := by
                  have hmore := leadsWith_append_more (v := t) hcon
                  simpa [ht] using hmore
                simp [habs] at hld
              simp [occursIn, hhead, hp0]
            · exact ih rest hrest p (heq ▸ List.mem_cons_of_mem p0 h)

/-- No piece of the split contains an occurrence of the separator. -/
theorem pySplit_no_occ (sep : Str) (hsep : sep.isEmpty = false) (s : Str) :
    ∀ p ∈ pySplit sep s, occursIn sep p = false :=
  pySplit_no_occ_aux sep hsep s.length s le_rfl

/-! ### Data model: Excel sheets, mapping ledger, rule documents -/

/-- One worksheet row: the values of cells in columns A and B (a missing or
empty cell is `none`). -/
abbrev Cell := Option Str × Option Str

/-- A two-column worksheet, as the list of its rows 1..max_row. -/
abbrev Sheet := List Cell

/-- `ws["A" + str(r)].value` for a 1-based row number `r`; reading past the
last row yields an empty cell. -/
def cellA (sh : Sheet) (r : Nat) : Option Str :=
  match sh.get? (r - 1) with
  | some c => c.1
  | none => none

/-- `ws["B" + str(r)].value` for a 1-based row number `r`. -/
def cellB (sh : Sheet) (r : Nat) : Option Str :=
  match sh.get? (r - 1) with
  | some c => c.2
  | none => none

/-- One entry of the global `mapping_data` list. -/
structure MappingRecord where
  type : Str
  name : Option Str
  server_id : Str
  cloud_id : Option Str
deriving DecidableEq

/-!
Convention for abstract resolvers: a pass receives the remote lookup as a
function `Str → Option Str`, and the source guards every result with Python
truthiness (`if cloudStatusId:`), under which `None` and the empty string
take the same missing-branch; `none` therefore stands for any falsy result
of the remote call.
-/

/-- Row-number selection shared by `replaceStatus`, `replacePriority`,
`replaceIssueType` and `replaceProject`: the source iterates over the cells
of column A with a counter that starts at 1 and is incremented before the
non-blank test, so the cell at 1-based row `i + 1` contributes the row number
`i + 2` (this skips the header row on a contiguous sheet). -/
def selectedRows (sh : Sheet) : List Nat :=
  (List.range sh.length).filterMap fun i =>
    match sh.get? i with
    | some c =>
      match c.1 with
      | some v =>
        if v.isEmpty then none
        else if (pyStrip v).isEmpty then none
        else some (i + 2)
      | none => none
    | none => none

/-- The server id read for a selected row: `str(ws["A" + str(row)].value).strip()`. -/
def rowId (sh : Sheet) (r : Nat) : Str :=
  pyStrip (pyStr (cellA sh r))

/-- Loop body shared by the status / priority / issue-type / project passes
(`main.py` lines 378-407 and their three clones): read the id and name of the
row, skip a falsy name, resolve the name to a cloud id, and on success replace
`template + original_id + '"'` by `template + cloud_id + '"'` for each
template; a mapping record is appended whether or not the cloud id was
found. -/
def rowStep (ty : Str) (resolve : Str → Option Str) (templates : List Str)
    (sh : Sheet) (st : Str × List MappingRecord) (r : Nat) :
    Str × List MappingRecord :=
  let original_id := rowId sh r
  match cellB sh r with
  | none => st
  | some name =>
    if name.isEmpty then st
    else
      match resolve name with
      | some cid =>
        (templates.foldl (fun d t =>
            let fromStr := t ++ original_id ++ [qc]
            if occursIn fromStr d then pyReplace d fromStr (t ++ cid ++ [qc])
            else d) st.1,
         st.2 ++ [⟨ty, some name, original_id, some cid⟩])
      | none => (st.1, st.2 ++ [⟨ty, some name, original_id, none⟩])

/-- Generic sheet-driven substitution pass over the working text and ledger. -/
def rowPass (ty : Str) (resolve : Str → Option Str) (templates : List Str)
    (sh : Sheet) (data : Str) (ledger : List MappingRecord) :
    Str × List MappingRecord :=
  (selectedRows sh).foldl (rowStep ty resolve templates sh) (data, ledger)

/-- `cloud.replaceStatus` (main.py lines 360-414), on the working text and
ledger; the status sheet and the `getStatusIdInCloud` resolver are passed
explicitly. -/
def replaceStatus (resolve : Str → Option Str) (templates : List Str)
    (sh : Sheet) (data : Str) (ledger : List MappingRecord) :
    Str × List MappingRecord :=
  rowPass (lit "status") resolve templates sh data ledger

/-- `cloud.replacePriority` (main.py lines 535-591). -/
def replacePriority (resolve : Str → Option Str) (templates : List Str)
    (sh : Sheet) (data : Str) (ledger : List MappingRecord) :
    Str × List MappingRecord :=
  rowPass (lit "priority") resolve templates sh data ledger

/-- `cloud.replaceIssueType` (main.py lines 593-650). -/
def replaceIssueType (resolve : Str → Option Str) (templates : List Str)
    (sh : Sheet) (data : Str) (ledger : List MappingRecord) :
    Str × List MappingRecord :=
  rowPass (lit "issuetype") resolve templates sh data ledger

/-- `cloud.replaceProject` (main.py lines 652-709); column B holds the
project key, which plays the role of the display name. -/
def replaceProject (resolve : Str → Option Str) (templates : List Str)
    (sh : Sheet) (data : Str) (ledger : List MappingRecord) :
    Str × List MappingRecord :=
  rowPass (lit "project") resolve templates sh data ledger

/-! ### User passes -/

/-- `getEmailforUserInExcel` (main.py lines 124-130): scan column A of the
users sheet for the first row whose stripped value equals the username and
return that row's column-B value (the email); a missing row and a row with an
empty B cell both signal "no email". -/
def getEmailforUserInExcel (sh : Sheet) (username : Str) : Option Str :=
  match sh with
  | [] => none
  | c :: rest =>
    match c.1 with
    | some v =>
      if pyStrip v = username then c.2 else getEmailforUserInExcel rest username
    | none => getEmailforUserInExcel rest username

/-- Non-blank stripped user keys of the users sheet (main.py lines 427-431). -/
def usersInSheet (sh : Sheet) : List Str :=
  sh.filterMap fun c =>
    match c.1 with
    | some v =>
      if v.isEmpty then none
      else if (pyStrip v).isEmpty then none
      else some (pyStrip v)
    | none => none

/-- Sheet users whose key occurs somewhere in the working text
(main.py lines 433-436), computed against the text as it is when the pass
starts. -/
def usersInJson (sh : Sheet) (data : Str) : List Str :=
  (usersInSheet sh).filter fun u => occursIn u data

/-- Loop body of `cloud.replaceUsers` (main.py lines 440-470): resolve the
user key to an email, then to an account id; on success replace
`template + user + '"'` for each template, and append a ledger record only
when at least one template matched; when no account id is found a record with
a null cloud id is appended unconditionally. -/
def userStep (sh : Sheet) (account : Str → Option Str) (templates : List Str)
    (st : Str × List MappingRecord) (user : Str) : Str × List MappingRecord :=
  match getEmailforUserInExcel sh user with
  | none => st
  | some email =>
    if email.isEmpty then st
    else
      match account email with
      | some accountId =>
        let res := templates.foldl (fun dr t =>
          let fromStr := t ++ user ++ [qc]
          if occursIn fromStr dr.1 then
            (pyReplace dr.1 fromStr (t ++ accountId ++ [qc]), true)
          else dr) (st.1, false)
        if res.2 then
          (res.1, st.2 ++ [⟨lit "user", some email, user, some accountId⟩])
        else (res.1, st.2)
      | none => (st.1, st.2 ++ [⟨lit "user", some email, user, none⟩])

/-- `cloud.replaceUsers` (main.py lines 417-475). -/
def replaceUsers (sh : Sheet) (account : Str → Option Str)
    (templates : List Str) (data : Str) (ledger : List MappingRecord) :
    Str × List MappingRecord :=
  (usersInJson sh data).foldl (userStep sh account templates) (data, ledger)

/-- Sheet user keys of legacy `JIRAUSER...` shape (main.py lines 488-492). -/
def jiraUsersInSheet (sh : Sheet) : List Str :=
  sh.filterMap fun c =>
    match c.1 with
    | some v =>
      if v.isEmpty then none
      else if leadsWith (lit "JIRAUSER") (pyStrip v) then some (pyStrip v)
      else none
    | none => none

/-- Legacy users whose key occurs in the working text (main.py lines 494-497). -/
def jiraUsersInJson (sh : Sheet) (data : Str) : List Str :=
  (jiraUsersInSheet sh).filter fun u => occursIn u data

/-- Loop body of `cloud.replaceJIRAUSERUsers` (main.py lines 501-527): same
email and account resolution as `userStep`, but with the single fixed
template `user + '"'`, and — unlike `userStep` — the ledger record for a
resolved account id is appended whether or not the template matched. -/
def jirauserStep (sh : Sheet) (account : Str → Option Str)
    (st : Str × List MappingRecord) (user : Str) : Str × List MappingRecord :=
  match getEmailforUserInExcel sh user with
  | none => st
  | some email =>
    if email.isEmpty then st
    else
      match account email with
      | some accountId =>
        let fromStr := user ++ [qc]
        ((if occursIn fromStr st.1 then
            pyReplace st.1 fromStr (accountId ++ [qc])
          else st.1),
         st.2 ++ [⟨lit "user", some email, user, some accountId⟩])
      | none => (st.1, st.2 ++ [⟨lit "user", some email, user, none⟩])

/-- `cloud.replaceJIRAUSERUsers` (main.py lines 478-532). -/
def replaceJIRAUSERUsers (sh : Sheet) (account : Str → Option Str)
    (data : Str) (ledger : List MappingRecord) : Str × List MappingRecord :=
  (jiraUsersInJson sh data).foldl (jirauserStep sh account) (data, ledger)

/-! ### Custom-field pass -/

/-- The scanned literal `customfield_`. -/
def cfPre : Str := lit "customfield_"

/-- Scanner for the leftmost non-overlapping occurrences of `pat`: at `skip`
zero it tests the current position, and after emitting a match at a position
it skips the remaining `pat.length - 1` characters of the match. -/
def findOccsA (pat : Str) : Str → Nat → Nat → List Nat
  | [], _, _ => []
  | c :: rest, i, skip =>
    match skip with
    | k + 1 => findOccsA pat rest (i + 1) k
    | 0 =>
      if pat.isEmpty then []
      else if leadsWith pat (c :: rest) then
        i :: findOccsA pat rest (i + 1) (pat.length - 1)
      else findOccsA pat rest (i + 1) 0

/-- Start positions of the leftmost non-overlapping occurrences of `pat` in
`s`, 0-based, starting the count at `i` — the spans produced by
`re.finditer` on a plain-text pattern. -/
def findOccs (pat : Str) (s : Str) (i : Nat) : List Nat :=
  findOccsA pat s i 0

/-- `getCustomFieldNameInExcel` (main.py lines 132-140): find the row whose
column-A value `v` satisfies `cf_id == "customfield_" + str(v).strip()` and
return its column-B value. -/
def getCustomFieldNameInExcel (sh : Sheet) (cfId : Str) : Option Str :=
  match sh with
  | [] => none
  | c :: rest =>
    match c.1 with
    | some v =>
      if cfId = cfPre ++ pyStrip v then c.2
      else getCustomFieldNameInExcel rest cfId
    | none => getCustomFieldNameInExcel rest cfId

/-- Loop body of `cloud.replaceCustomFields` (main.py lines 324-350): slice
`data[match.start() : match.end() + 5]` out of the current text, look the id
up in the store, silently skip when no (or a blank) display name is found,
and otherwise resolve to a cloud id, replacing all occurrences on success;
the ledger records carry the cloud id or `none`. -/
def cfStep (sh : Sheet) (resolve : Str → Option Str)
    (st : Str × List MappingRecord) (pos : Nat) : Str × List MappingRecord :=
  let oldId := (st.1.drop pos).take (cfPre.length + 5)
  match getCustomFieldNameInExcel sh oldId with
  | none => st
  | some cfName =>
    if cfName.isEmpty then st
    else
      match resolve cfName with
      | some newId =>
        (pyReplace st.1 oldId newId,
         st.2 ++ [⟨lit "customfield", some cfName, oldId, some newId⟩])
      | none =>
        (st.1, st.2 ++ [⟨lit "customfield", some cfName, oldId, none⟩])

/-- `cloud.replaceCustomFields` (main.py lines 312-357): the match positions
are computed once against the initial text, then each occurrence is processed
against the current text. -/
def replaceCustomFields (sh : Sheet) (resolve : Str → Option Str)
    (data : Str) (ledger : List MappingRecord) : Str × List MappingRecord :=
  (findOccs cfPre data 0).foldl (cfStep sh resolve) (data, ledger)

/-! ### Set-membership (ONE_OF / NOT_ONE_OF) condition pass -/

/-- `getStatusNameInExcel` (main.py lines 142-148): first row of column A
whose stripped value equals the stripped id; the result is that row's
column-B value. `getIssueTypeNameInExcel` and `getPriorityNameInExcel`
(lines 150-164) are textually identical up to the sheet used, so the three
are embedded by this single function applied to the respective sheet. -/
def getNameByIdInExcel (sh : Sheet) (id : Str) : Option Str :=
  match sh with
  | [] => none
  | c :: rest =>
    match c.1 with
    | some v =>
      if pyStrip v = pyStrip id then c.2 else getNameByIdInExcel rest id
    | none => getNameByIdInExcel rest id

/-- Per-server-id body of the `replaceOneOfCondition` loop
(main.py lines 740-777) for one field type: strip the id, skip it when blank,
resolve id → display name → cloud id for the matching kind, append a ledger
record only when a name or a cloud id was found, and keep the cloud id for
the rewritten array when found.  The state is the `new_ids` accumulator
paired with the ledger. -/
def oneOfIdStep (statusSh issuetypeSh prioritySh : Sheet)
    (resS resI resP : Str → Option Str) (fieldType : Str)
    (st : List Str × List MappingRecord) (old_id0 : Str) :
    List Str × List MappingRecord :=
  let old_id := pyStrip old_id0
  if old_id.isEmpty then st
  else
    let nameAndId : Option Str × Option Str :=
      if fieldType = lit "status" then
        let name := getNameByIdInExcel statusSh old_id
        (name, match name with
               | some n => if n.isEmpty then none else resS n
               | none => none)
      else if fieldType = lit "issuetype" then
        let name := getNameByIdInExcel issuetypeSh old_id
        (name, match name with
               | some n => if n.isEmpty then none else resI n
               | none => none)
      else if fieldType = lit "priority" then
        let name := getNameByIdInExcel prioritySh old_id
        (name, match name with
               | some n => if n.isEmpty then none else resP n
               | none => none)
      else (none, none)
    let name := nameAndId.1
    let new_id := nameAndId.2
    let appended :=
      if truthy name || !new_id.isNone then
        st.2 ++ [⟨fieldType, name, old_id, new_id⟩]
      else st.2
    match new_id with
    | some nid => (st.1 ++ [nid], appended)
    | none => (st.1, appended)

/-- The literal `"value": "[\"id1\",\"id2\"]"` fragment rebuilt from a list of
ids (main.py lines 780-781). -/
def valueLit (ids : List Str) : Str :=
  lit "\"value\": \"[\\\"" ++ joinSep (lit "\\\",\\\"") ids ++ lit "\\\"]\""

/-- Body of `replaceOneOfCondition` for one regex match whose embedded array
decoded to `id_list` (main.py lines 739-784): process each id, then replace
the rebuilt old `"value"` fragment by the one rebuilt from the resolved ids,
if the rebuilt fragment occurs in the text. -/
def oneOfMatchBody (statusSh issuetypeSh prioritySh : Sheet)
    (resS resI resP : Str → Option Str) (fieldType : Str)
    (id_list : List Str) (data : Str) (ledger : List MappingRecord) :
    Str × List MappingRecord :=
  let res := id_list.foldl
    (oneOfIdStep statusSh issuetypeSh prioritySh resS resI resP fieldType)
    ([], ledger)
  let old_value := valueLit id_list
  let new_value := valueLit res.1
  ((if occursIn old_value data then pyReplace data old_value new_value
    else data),
   res.2)

/-! ### Disable filter and rule documents -/

/-- One automation rule, keeping the fields the program inspects. -/
structure Rule where
  state : Option Str
  id : Option Str
  name : Option Str
deriving DecidableEq

/-- The parsed input document (`my_list`), with its `rules` list
(`my_list.get('rules', [])`). -/
structure InputDoc where
  rules : List Rule
deriving DecidableEq

/-- The working document written by the disable filter:
`{"rules": enableList, "cloud": False}`. -/
structure WorkingDoc where
  rules : List Rule
  cloud : Bool
deriving DecidableEq

/-- `cloud.removeDisabled` (main.py lines 260-276): the first component is
the document dumped verbatim to the `-original-pretty.json` backup, the
second the filtered working document. -/
def removeDisabled (doc : InputDoc) : InputDoc × WorkingDoc :=
  (doc,
   { rules := doc.rules.filter fun rule => decide (rule.state = some (lit "ENABLED"))
     cloud := false })

/-! ### Cloud resolvers, modelled on the decoded HTTP response -/

/-- One candidate returned by a name-search endpoint. -/
structure Candidate where
  name : Str
  id : Str
deriving DecidableEq

/-- One candidate returned by the project-search endpoint. -/
structure ProjectCandidate where
  key : Str
  id : Str
deriving DecidableEq

/-- One candidate returned by the user-search endpoint. -/
structure UserCandidate where
  accountId : Str
deriving DecidableEq

/-- Linear scan for the first candidate with an exactly equal name
(the `for ... if x['name'] == name: return x['id']` loops). -/
def firstMatch : List Candidate → Str → Option Str
  | [], _ => none
  | c :: rest, nm => if c.name = nm then some c.id else firstMatch rest nm

/-- Linear scan for the first project candidate with an exactly equal key. -/
def firstMatchKey : List ProjectCandidate → Str → Option Str
  | [], _ => none
  | c :: rest, k => if c.key = k then some c.id else firstMatchKey rest k

/-- `getCustomFieldIdInCloud` (main.py lines 167-178), on the decoded
response: no falsy-name guard, `None` unless the status is 200 and a
candidate matches the name exactly. -/
def getCustomFieldIdInCloud (nm : Str) (statusCode : Nat)
    (values : List Candidate) : Option Str :=
  if statusCode ≠ 200 then none else firstMatch values nm

/-- `getStatusIdInCloud` (main.py lines 180-193). -/
def getStatusIdInCloud (nm : Str) (statusCode : Nat)
    (values : List Candidate) : Option Str :=
  if nm.isEmpty then none
  else if statusCode ≠ 200 then none
  else firstMatch values nm

/-- `getPriorityIdInCloud` (main.py lines 195-208). -/
def getPriorityIdInCloud (nm : Str) (statusCode : Nat)
    (values : List Candidate) : Option Str :=
  if nm.isEmpty then none
  else if statusCode ≠ 200 then none
  else firstMatch values nm

/-- `getIssueTypeIdInCloud` (main.py lines 210-223); the endpoint returns the
candidate list directly. -/
def getIssueTypeIdInCloud (nm : Str) (statusCode : Nat)
    (values : List Candidate) : Option Str :=
  if nm.isEmpty then none
  else if statusCode ≠ 200 then none
  else firstMatch values nm

/-- `getProjectIdInCloud` (main.py lines 239-252), matching on the project
key. -/
def getProjectIdInCloud (projectKey : Str) (statusCode : Nat)
    (values : List ProjectCandidate) : Option Str :=
  if projectKey.isEmpty then none
  else if statusCode ≠ 200 then none
  else firstMatchKey values projectKey

/-- `getAccountIdInCloud` (main.py lines 225-237): returns the accountId of
the first search result without any equality check against the queried
email. -/
def getAccountIdInCloud (email : Option Str) (statusCode : Nat)
    (users : List UserCandidate) : Option Str :=
  if !truthy email then none
  else if statusCode ≠ 200 then none
  else
    match users with
    | [] => none
    | u :: _ => some u.accountId

/-! ### File-access trace of a run -/

/-- `<file>-original-pretty.json`. -/
def backupName (f : Str) : Str := f ++ lit "-original-pretty.json"

/-- `<file>-modified-for-cloud.json`, the working copy. -/
def workingName (f : Str) : Str := f ++ lit "-modified-for-cloud.json"

/-- `<file>-modified-for-cloud-pretty.json`, the final output. -/
def prettyName (f : Str) : Str := f ++ lit "-modified-for-cloud-pretty.json"

/-- The mapping report workbook name. -/
def mappingResultName : Str := lit "mapping_result.xlsx"

/-- `f"{i}-{automation.get('id')}-modified-for-cloud.json"` for the per-rule
split files. -/
def splitName (i : Nat) (ruleId : Option Str) : Str :=
  lit (toString i) ++ lit "-" ++ pyStr ruleId ++ lit "-modified-for-cloud.json"

/-- Names of the per-rule split files written by step 12 of `main`
(main.py lines 1003-1011): rules are enumerated from 1 and a file is written
for each rule whose state is not `DISABLED`. -/
def splitNames (rules : List Rule) : List Str :=
  (rules.enumFrom 1).filterMap fun p =>
    if p.2.state ≠ some (lit "DISABLED") then some (splitName p.1 p.2.id)
    else none

/-- Every file path opened for writing during `main` (main.py lines 919-1015),
in order: the disable filter writes the backup and the working copy; each of
the nine substitution passes and the three `replaceOneOfCondition` calls
rewrites the working copy; `formatJSON` writes the pretty file; the optional
split writes one file per non-disabled rule; `generateMappingExcel` writes
the report workbook. -/
def mainWrites (f : Str) (split : Bool) (rules : List Rule) : List Str :=
  [backupName f, workingName f] ++
  [workingName f] ++
  [workingName f] ++
  [workingName f] ++
  [workingName f] ++
  [workingName f] ++
  [workingName f] ++
  [workingName f] ++
  [workingName f] ++
  [workingName f, workingName f, workingName f] ++
  [prettyName f] ++
  (if split then splitNames rules else []) ++
  [mappingResultName]

/-- Every file path opened for reading during `main`: the input document is
read once by the disable filter; every other read is of the working copy. -/
def mainReads (f : Str) (split : Bool) : List Str :=
  [f] ++
  [workingName f, workingName f, workingName f, workingName f, workingName f,
   workingName f, workingName f, workingName f, workingName f, workingName f,
   workingName f, workingName f] ++
  (if split then [workingName f] else [])

/-! ### Generic fold lemmas -/

theorem foldl_congr_inert {α σ : Type} (step : σ → α → σ) (l : List α)
    (h : ∀ x ∈ l, ∀ st, step st x = st) : ∀ init, l.foldl step init = init := by
  induction l with
  | nil => intro init; rfl
  | cons x xs ih =>
    intro init
    have hx := h x (List.mem_cons_self x xs) init
    simp only [List.foldl_cons, hx]
    exact ih (fun y hy st => h y (List.mem_cons_of_mem x hy) st) init

theorem foldl_single {α σ : Type} [DecidableEq α] (step : σ → α → σ)
    (l : List α) (r : α) (hcount : l.count r = 1)
    (hinert : ∀ x ∈ l, x ≠ r → ∀ st, step st x = st) :
    ∀ init, l.foldl step init = step init r := by
  induction l with
  | nil => simp at hcount
  | cons x xs ih =>
    intro init
    by_cases hx : x = r
    · subst hx
      have hzero : xs.count x = 0 := by
        have hc := hcount
        rw [List.count_cons_self] at hc
        omega
      have hall : ∀ y ∈ xs, ∀ st, step st y = st := by
        intro y hy st
        have hne : y ≠ x := by
          intro hcon
          subst hcon
          exact absurd (List.count_pos_iff.mpr hy) (by omega)
        exact hinert y (List.mem_cons_of_mem x hy) hne st
      simp only [List.foldl_cons]
      exact foldl_congr_inert step xs hall (step init x)
    · have hstep := hinert x (List.mem_cons_self x xs) hx init
      have hcount' : xs.count r = 1 := by
        rw [List.count_cons_of_ne (Ne.symm hx)] at hcount
        exact hcount
      simp only [List.foldl_cons, hstep]
      exact ih hcount' (fun y hy hne st => hinert y (List.mem_cons_of_mem x hy) hne st) init

/-! ### Claim C3 -/

/-- Claim C3: the disable-filter pass writes a verbatim copy of the parsed
input first, and its working document consists of exactly the input rules in
`ENABLED` state, in input order, wrapped with `cloud := false`; the output
rule count is the number of enabled input rules and no rule with another
state survives. -/
theorem claim_C3_disable_filter (doc : InputDoc) :
    (removeDisabled doc).1 = doc ∧
    (removeDisabled doc).2.cloud = false ∧
    (removeDisabled doc).2.rules.length
      = doc.rules.countP (fun rule => decide (rule.state = some (lit "ENABLED"))) ∧
    (∀ rule ∈ (removeDisabled doc).2.rules, rule.state = some (lit "ENABLED")) ∧
    List.Sublist (removeDisabled doc).2.rules doc.rules ∧
    (∀ rule, rule ∈ (removeDisabled doc).2.rules ↔
      rule ∈ doc.rules ∧ rule.state = some (lit "ENABLED")) := by
  refine ⟨rfl, rfl, ?_, ?_, ?_, ?_⟩
  · simp [removeDisabled, List.countP_eq_length_filter]
  · intro rule hrule
    simpa [removeDisabled] using (List.mem_filter.mp hrule).2
  · exact List.filter_sublist doc.rules
  · intro rule
    constructor
    · intro hrule
      exact ⟨(List.mem_filter.mp hrule).1, by
        simpa [removeDisabled] using (List.mem_filter.mp hrule).2⟩
    · intro ⟨hmem, hstate⟩
      exact List.mem_filter.mpr ⟨hmem, by simpa [removeDisabled] using hstate⟩

/-- Instantiation of claim C3: one enabled and one disabled rule. -/
theorem claim_C3_witness :
    (removeDisabled ⟨[⟨some (lit "ENABLED"), some (lit "1"), some (lit "a")⟩,
        ⟨some (lit "DISABLED"), some (lit "2"), some (lit "b")⟩]⟩).1
      = ⟨[⟨some (lit "ENABLED"), some (lit "1"), some (lit "a")⟩,
          ⟨some (lit "DISABLED"), some (lit "2"), some (lit "b")⟩]⟩ ∧
    ∀ rule ∈ (removeDisabled ⟨[⟨some (lit "ENABLED"), some (lit "1"),
        some (lit "a")⟩,
        ⟨some (lit "DISABLED"), some (lit "2"), some (lit "b")⟩]⟩).2.rules,
      rule.state = some (lit "ENABLED") := by
  have h := claim_C3_disable_filter
    ⟨[⟨some (lit "ENABLED"), some (lit "1"), some (lit "a")⟩,
      ⟨some (lit "DISABLED"), some (lit "2"), some (lit "b")⟩]⟩
  exact ⟨h.1, h.2.2.2.1⟩

/-! ### Claim C9 -/

/-- Claim C9: the account-by-email resolver returns the accountId of the
first candidate exactly when the email is truthy, the HTTP status is 200 and
the result list is non-empty — with no check that any candidate matches the
queried email — and returns `none` exactly when the email is falsy, the
status is not 200, or the result list is empty. -/
theorem claim_C9_account_resolver (email : Option Str) (statusCode : Nat)
    (users : List UserCandidate) :
    getAccountIdInCloud email statusCode users
      = (if truthy email = true ∧ statusCode = 200 then
           users.head?.map (fun u => u.accountId)
         else none) ∧
    (getAccountIdInCloud email statusCode users = none ↔
      truthy email = false ∨ statusCode ≠ 200 ∨ users = []) := by
  constructor
  · by_cases he : truthy email <;> by_cases hs : statusCode = 200 <;>
      cases users <;> simp [getAccountIdInCloud, he, hs]
  · by_cases he : truthy email <;> by_cases hs : statusCode = 200 <;>
      cases users <;> simp [getAccountIdInCloud, he, hs]

/-- Instantiation of claim C9: the accountId of the first candidate is
returned even though no candidate matches the queried email. -/
theorem claim_C9_witness :
    getAccountIdInCloud (some (lit "e@x")) 200 [⟨lit "A"⟩, ⟨lit "B"⟩]
      = some (lit "A") := by
  have h := (claim_C9_account_resolver (some (lit "e@x")) 200
    [⟨lit "A"⟩, ⟨lit "B"⟩]).1
  rw [h]
  decide

/-! ### Claim C8 -/

theorem firstMatch_eq_find (vs : List Candidate) (nm : Str) :
    firstMatch vs nm = (vs.find? fun c => decide (c.name = nm)).map (fun c => c.id) := by
  induction vs with
  | nil => rfl
  | cons c rest ih =>
    by_cases hc : c.name = nm
    · simp [firstMatch, List.find?, hc]
    · simp [firstMatch, List.find?, hc, ih]

theorem firstMatchKey_eq_find (vs : List ProjectCandidate) (k : Str) :
    firstMatchKey vs k = (vs.find? fun c => decide (c.key = k)).map (fun c => c.id) := by
  induction vs with
  | nil => rfl
  | cons c rest ih =>
    by_cases hc : c.key = k
    · simp [firstMatchKey, List.find?, hc]
    · simp [firstMatchKey, List.find?, hc, ih]

theorem firstMatch_none_of_no_match {vs : List Candidate} {nm : Str}
    (h : ∀ c ∈ vs, c.name ≠ nm) : firstMatch vs nm = none := by
  induction vs with
  | nil => rfl
  | cons c rest ih =>
    have hc := h c (List.mem_cons_self c rest)
    simp only [firstMatch, hc, if_false]
    exact ih fun d hd => h d (List.mem_cons_of_mem c hd)

theorem firstMatchKey_none_of_no_match {vs : List ProjectCandidate} {k : Str}
    (h : ∀ c ∈ vs, c.key ≠ k) : firstMatchKey vs k = none := by
  induction vs with
  | nil => rfl
  | cons c rest ih =>
    have hc := h c (List.mem_cons_self c rest)
    simp only [firstMatchKey, hc, if_false]
    exact ih fun d hd => h d (List.mem_cons_of_mem c hd)

/-- Claim C8: each per-kind resolver (custom field, status, priority, issue
type, project) returns `none` on a non-200 status, on an empty candidate
list, and when no candidate name (key, for projects) equals the queried name
exactly; on a 200 status with a truthy name it returns the id of the first
exactly-matching candidate in scan order. -/
theorem claim_C8_resolvers_exact_match (nm : Str) (statusCode : Nat)
    (vs : List Candidate) (vsp : List ProjectCandidate) :
    ((statusCode ≠ 200 → getCustomFieldIdInCloud nm statusCode vs = none) ∧
     (vs = [] → getCustomFieldIdInCloud nm statusCode vs = none) ∧
     ((∀ c ∈ vs, c.name ≠ nm) → getCustomFieldIdInCloud nm statusCode vs = none) ∧
     getCustomFieldIdInCloud nm 200 vs
       = (vs.find? fun c => decide (c.name = nm)).map (fun c => c.id)) ∧
    ((statusCode ≠ 200 → getStatusIdInCloud nm statusCode vs = none) ∧
     (vs = [] → getStatusIdInCloud nm statusCode vs = none) ∧
     ((∀ c ∈ vs, c.name ≠ nm) → getStatusIdInCloud nm statusCode vs = none) ∧
     (nm ≠ [] → getStatusIdInCloud nm 200 vs
       = (vs.find? fun c => decide (c.name = nm)).map (fun c => c.id))) ∧
    ((statusCode ≠ 200 → getPriorityIdInCloud nm statusCode vs = none) ∧
     (vs = [] → getPriorityIdInCloud nm statusCode vs = none) ∧
     ((∀ c ∈ vs, c.name ≠ nm) → getPriorityIdInCloud nm statusCode vs = none) ∧
     (nm ≠ [] → getPriorityIdInCloud nm 200 vs
       = (vs.find? fun c => decide (c.name = nm)).map (fun c => c.id))) ∧
    ((statusCode ≠ 200 → getIssueTypeIdInCloud nm statusCode vs = none) ∧
     (vs = [] → getIssueTypeIdInCloud nm statusCode vs = none) ∧
     ((∀ c ∈ vs, c.name ≠ nm) → getIssueTypeIdInCloud nm statusCode vs = none) ∧
     (nm ≠ [] → getIssueTypeIdInCloud nm 200 vs
       = (vs.find? fun c => decide (c.name = nm)).map (fun c => c.id))) ∧
    ((statusCode ≠ 200 → getProjectIdInCloud nm statusCode vsp = none) ∧
     (vsp = [] → getProjectIdInCloud nm statusCode vsp = none) ∧
     ((∀ c ∈ vsp, c.key ≠ nm) → getProjectIdInCloud nm statusCode vsp = none) ∧
     (nm ≠ [] → getProjectIdInCloud nm 200 vsp
       = (vsp.find? fun c => decide (c.key = nm)).map (fun c => c.id))) := by
  have hcfA : statusCode ≠ 200 → getCustomFieldIdInCloud nm statusCode vs = none := by
    intro h; simp [getCustomFieldIdInCloud, h]
  have hcfB : vs = [] → getCustomFieldIdInCloud nm statusCode vs = none := by
    intro h; subst h
    by_cases hs : statusCode = 200 <;> simp [getCustomFieldIdInCloud, hs, firstMatch]
  have hcfC : (∀ c ∈ vs, c.name ≠ nm) → getCustomFieldIdInCloud nm statusCode vs = none := by
    intro h
    by_cases hs : statusCode = 200 <;>
      simp [getCustomFieldIdInCloud, hs, firstMatch_none_of_no_match h]
  have hcfD : getCustomFieldIdInCloud nm 200 vs
      = (vs.find? fun c => decide (c.name = nm)).map (fun c => c.id) := by
    simp [getCustomFieldIdInCloud, firstMatch_eq_find]
  have hstA : statusCode ≠ 200 → getStatusIdInCloud nm statusCode vs = none := by
    intro h
    by_cases hnm : nm.isEmpty <;> simp [getStatusIdInCloud, h, hnm]
  have hstB : vs = [] → getStatusIdInCloud nm statusCode vs = none := by
    intro h; subst h
    by_cases hnm : nm.isEmpty <;> by_cases hs : statusCode = 200 <;>
      simp [getStatusIdInCloud, hnm, hs, firstMatch]
  have hstC : (∀ c ∈ vs, c.name ≠ nm) → getStatusIdInCloud nm statusCode vs = none := by
    intro h
    by_cases hnm : nm.isEmpty <;> by_cases hs : statusCode = 200 <;>
      simp [getStatusIdInCloud, hnm, hs, firstMatch_none_of_no_match h]
  have hstD : nm ≠ [] → getStatusIdInCloud nm 200 vs
      = (vs.find? fun c => decide (c.name = nm)).map (fun c => c.id) := by
    intro h
    have hnm : nm.isEmpty = false := by simpa [List.isEmpty_iff] using h
    simp [getStatusIdInCloud, hnm, firstMatch_eq_find]
  have hprA : statusCode ≠ 200 → getProjectIdInCloud nm statusCode vsp = none := by
    intro h
    by_cases hnm : nm.isEmpty <;> simp [getProjectIdInCloud, h, hnm]
  have hprB : vsp = [] → getProjectIdInCloud nm statusCode vsp = none := by
    intro h; subst h
    by_cases hnm : nm.isEmpty <;> by_cases hs : statusCode = 200 <;>
      simp [getProjectIdInCloud, hnm, hs, firstMatchKey]
  have hprC : (∀ c ∈ vsp, c.key ≠ nm) → getProjectIdInCloud nm statusCode vsp = none := by
    intro h
    by_cases hnm : nm.isEmpty <;> by_cases hs : statusCode = 200 <;>
      simp [getProjectIdInCloud, hnm, hs, firstMatchKey_none_of_no_match h]
  have hprD : nm ≠ [] → getProjectIdInCloud nm 200 vsp
      = (vsp.find? fun c => decide (c.key = nm)).map (fun c => c.id) := by
    intro h
    have hnm : nm.isEmpty = false := by simpa [List.isEmpty_iff] using h
    simp [getProjectIdInCloud, hnm, firstMatchKey_eq_find]
  exact ⟨⟨hcfA, hcfB, hcfC, hcfD⟩, ⟨hstA, hstB, hstC, hstD⟩,
    ⟨hstA, hstB, hstC, hstD⟩, ⟨hstA, hstB, hstC, hstD⟩,
    ⟨hprA, hprB, hprC, hprD⟩⟩

/-- Instantiation of claim C8 at a concrete response: two candidates named
`Done`, and the resolver returns the id of the first. -/
theorem claim_C8_witness :
    getStatusIdInCloud (lit "Done") 200
      [⟨lit "Open", lit "9"⟩, ⟨lit "Done", lit "1"⟩, ⟨lit "Done", lit "2"⟩]
      = some (lit "1") := by
  have h := ((claim_C8_resolvers_exact_match (lit "Done") 200
      [⟨lit "Open", lit "9"⟩, ⟨lit "Done", lit "1"⟩, ⟨lit "Done", lit "2"⟩]
      []).2.1).2.2.2 (by decide)
  rw [h]
  decide

/-! ### Structure lemmas for the sheet-driven passes -/

/-- The ledger record contributed by one selected row, independent of the
working text: appended exactly when the row's column-B name is truthy, with
the resolver result as cloud id. -/
def rowRec (ty : Str) (resolve : Str → Option Str) (sh : Sheet) (r : Nat) :
    Option MappingRecord :=
  match cellB sh r with
  | none => none
  | some name =>
    if name.isEmpty then none
    else some ⟨ty, some name, rowId sh r, resolve name⟩

theorem rowStep_snd (ty : Str) (res : Str → Option Str) (tpl : List Str)
    (sh : Sheet) (d : Str) (l : List MappingRecord) (r : Nat) :
    (rowStep ty res tpl sh (d, l) r).2 = l ++ (rowRec ty res sh r).toList := by
  cases hB : cellB sh r with
  | none => simp [rowStep, rowRec, hB]
  | some name =>
    by_cases hn : name.isEmpty
    · simp [rowStep, rowRec, hB, hn]
    · cases hres : res name with
      | some cid => simp [rowStep, rowRec, hB, hn, hres]
      | none => simp [rowStep, rowRec, hB, hn, hres]

theorem rowFold_snd (ty : Str) (res : Str → Option Str) (tpl : List Str)
    (sh : Sheet) (rows : List Nat) :
    ∀ (d : Str) (l : List MappingRecord),
      ((rows.foldl (rowStep ty res tpl sh) (d, l)).2
        = l ++ rows.filterMap (rowRec ty res sh)) := by
  induction rows with
  | nil => intro d l; simp
  | cons r rows ih =>
    intro d l
    simp only [List.foldl_cons]
    have hstep := ih (rowStep ty res tpl sh (d, l) r).1
      (rowStep ty res tpl sh (d, l) r).2
    rw [show rowStep ty res tpl sh (d, l) r
        = ((rowStep ty res tpl sh (d, l) r).1,
           (rowStep ty res tpl sh (d, l) r).2) from rfl] at hstep ⊢
    rw [hstep, rowStep_snd]
    cases hrec : rowRec ty res sh r with
    | none => simp [List.filterMap_cons, hrec]
    | some v => simp [List.filterMap_cons, hrec]

/-- The ledger component of each sheet-driven pass is determined by the sheet
and the resolver alone; one record per selected row with a truthy name. -/
theorem rowPass_snd (ty : Str) (res : Str → Option Str) (tpl : List Str)
    (sh : Sheet) (data : Str) (ledger : List MappingRecord) :
    (rowPass ty res tpl sh data ledger).2
      = ledger ++ (selectedRows sh).filterMap (rowRec ty res sh) :=
  rowFold_snd ty res tpl sh (selectedRows sh) data ledger

/-- A row is inert when its column-B name cell is falsy: the loop body skips
it without touching the text or the ledger. -/
def rowInertB (sh : Sheet) (r : Nat) : Bool :=
  match cellB sh r with
  | none => true
  | some name => name.isEmpty

theorem rowStep_inert (ty : Str) (res : Str → Option Str) (tpl : List Str)
    (sh : Sheet) (r : Nat) (h : rowInertB sh r = true) :
    ∀ st, rowStep ty res tpl sh st r = st := by
  intro st
  cases hB : cellB sh r with
  | none => simp [rowStep, hB]
  | some name =>
    have hn : name.isEmpty = true := by simpa [rowInertB, hB] using h
    simp [rowStep, hB, hn]

/-- A row cannot touch the given text when its name is falsy, its name does
not resolve, or no templated occurrence of its id is present in that text. -/
def rowNoMatchB (res : Str → Option Str) (tpl : List Str) (sh : Sheet)
    (data : Str) (r : Nat) : Bool :=
  match cellB sh r with
  | none => true
  | some name =>
    if name.isEmpty then true
    else
      match res name with
      | none => true
      | some _ => tpl.all fun t => !(occursIn (t ++ rowId sh r ++ [qc]) data)

theorem templFold_fst_of_noocc (tpl : List Str) (oid cid : Str) (d : Str)
    (h : ∀ t ∈ tpl, occursIn (t ++ oid ++ [qc]) d = false) :
    tpl.foldl (fun d0 t =>
      let fromStr := t ++ oid ++ [qc]
      if occursIn fromStr d0 then pyReplace d0 fromStr (t ++ cid ++ [qc])
      else d0) d = d := by
  induction tpl with
  | nil => rfl
  | cons t ts ih =>
    have ht := h t (List.mem_cons_self t ts)
    simp only [List.foldl_cons, ht, Bool.false_eq_true, if_false]
    exact ih fun t' ht' => h t' (List.mem_cons_of_mem t ht')

theorem rowStep_fst_of_noMatch (ty : Str) (res : Str → Option Str)
    (tpl : List Str) (sh : Sheet) (d : Str) (l : List MappingRecord) (r : Nat)
    (h : rowNoMatchB res tpl sh d r = true) :
    (rowStep ty res tpl sh (d, l) r).1 = d := by
  cases hB : cellB sh r with
  | none => simp [rowStep, hB]
  | some name =>
    by_cases hn : name.isEmpty
    · simp [rowStep, hB, hn]
    · cases hres : res name with
      | none => simp [rowStep, hB, hn, hres]
      | some cid =>
        have hall : ∀ t ∈ tpl, occursIn (t ++ rowId sh r ++ [qc]) d = false := by
          intro t ht
          have := h
          simp only [rowNoMatchB, hB, hn, Bool.false_eq_true, if_false, hres,
            List.all_eq_true] at this
          simpa using this t ht
        simp only [rowStep, hB, hn, Bool.false_eq_true, if_false, hres]
        exact templFold_fst_of_noocc tpl (rowId sh r) cid d hall

theorem rowFold_fst_of_noMatch (ty : Str) (res : Str → Option Str)
    (tpl : List Str) (sh : Sheet) (data : Str) (rows : List Nat)
    (h : ∀ r ∈ rows, rowNoMatchB res tpl sh data r = true) :
    ∀ l, ((rows.foldl (rowStep ty res tpl sh) (data, l)).1 = data) := by
  induction rows with
  | nil => intro l; rfl
  | cons r rows ih =>
    intro l
    have hfst := rowStep_fst_of_noMatch ty res tpl sh data l r
      (h r (List.mem_cons_self r rows))
    have key : rowStep ty res tpl sh (data, l) r
        = (data, (rowStep ty res tpl sh (data, l) r).2) :=
      Prod.ext_iff.mpr ⟨hfst, rfl⟩
    simp only [List.foldl_cons]
    rw [key]
    exact ih (fun r' hr' => h r' (List.mem_cons_of_mem r hr'))
      (rowStep ty res tpl sh (data, l) r).2

/-! ### Claim C1 -/

/-- Claim C1, for the status and priority passes, scoped to a single
processed record and a single context template: when the record's name
resolves to a cloud id and the templated id occurs in the working text, the
pass output decomposes as the input with every occurrence of
`template ++ server_id ++ '"'` replaced by `template ++ cloud_id ++ '"'`;
the pieces between the replaced occurrences — which carry every occurrence
of the server id lying outside the templated contexts — are preserved
verbatim, and one ledger record with the cloud id is appended. -/
theorem claim_C1_templated_replacement
    (res : Str → Option Str) (t : Str) (sh : Sheet) (data : Str)
    (ledger : List MappingRecord) (r : Nat) (name cid : Str)
    (hcount : (selectedRows sh).count r = 1)
    (hinert : ∀ x ∈ selectedRows sh, x ≠ r → rowInertB sh x = true)
    (hname : cellB sh r = some name) (hne : name.isEmpty = false)
    (hres : res name = some cid)
    (hocc : occursIn (t ++ rowId sh r ++ [qc]) data = true) :
    (data = joinSep (t ++ rowId sh r ++ [qc])
        (pySplit (t ++ rowId sh r ++ [qc]) data) ∧
     (∀ p ∈ pySplit (t ++ rowId sh r ++ [qc]) data,
        occursIn (t ++ rowId sh r ++ [qc]) p = false) ∧
     replaceStatus res [t] sh data ledger
       = (joinSep (t ++ cid ++ [qc]) (pySplit (t ++ rowId sh r ++ [qc]) data),
          ledger ++ [⟨lit "status", some name, rowId sh r, some cid⟩])) ∧
    replacePriority res [t] sh data ledger
      = (joinSep (t ++ cid ++ [qc]) (pySplit (t ++ rowId sh r ++ [qc]) data),
         ledger ++ [⟨lit "priority", some name, rowId sh r, some cid⟩]) := by
  have hfromne : (t ++ rowId sh r ++ [qc]).isEmpty = false := by
    simp [List.isEmpty_iff]
  have hstep : ∀ ty, rowStep ty res [t] sh (data, ledger) r
      = (joinSep (t ++ cid ++ [qc]) (pySplit (t ++ rowId sh r ++ [qc]) data),
         ledger ++ [⟨ty, some name, rowId sh r, some cid⟩]) := by
    intro ty
    simp only [rowStep, hname, hne, Bool.false_eq_true, if_false, hres,
      List.foldl_cons, List.foldl_nil, hocc, if_true, pyReplace]
  have hpass : ∀ ty, rowPass ty res [t] sh data ledger
      = (joinSep (t ++ cid ++ [qc]) (pySplit (t ++ rowId sh r ++ [qc]) data),
         ledger ++ [⟨ty, some name, rowId sh r, some cid⟩]) := by
    intro ty
    rw [rowPass, foldl_single (rowStep ty res [t] sh) (selectedRows sh) r hcount
      (fun x hx hne' st => rowStep_inert ty res [t] sh x (hinert x hx hne') st)]
    exact hstep ty
  exact ⟨⟨(joinSep_pySplit _ data).symm,
    pySplit_no_occ _ hfromne data,
    hpass (lit "status")⟩,
    hpass (lit "priority")⟩

/-- Instantiation of claim C1: a two-row status sheet (header plus the record
`10100 ↦ Done`), a resolver sending `Done` to `10099`, and a text containing
one templated occurrence `T10100"` next to an untemplated `10100`. -/
theorem claim_C1_witness :
    replaceStatus (fun n => if n = lit "Done" then some (lit "10099") else none)
      [lit "T"]
      [(some (lit "id"), some (lit "pname")),
       (some (lit "10100"), some (lit "Done"))]
      (lit "x10100 T10100\"y") []
      = (joinSep (lit "T" ++ lit "10099" ++ [qc])
          (pySplit (lit "T" ++ lit "10100" ++ [qc]) (lit "x10100 T10100\"y")),
         [⟨lit "status", some (lit "Done"), lit "10100", some (lit "10099")⟩]) := by
  have h := (claim_C1_templated_replacement
    (fun n => if n = lit "Done" then some (lit "10099") else none)
    (lit "T")
    [(some (lit "id"), some (lit "pname")),
     (some (lit "10100"), some (lit "Done"))]
    (lit "x10100 T10100\"y") [] 2 (lit "Done") (lit "10099")
    (by decide) (by decide) (by decide) (by decide) (by decide)
    (by decide)).1.2.2
  exact h

/-! ### Claim C2 -/

theorem filterMap_count_single {α β : Type} [DecidableEq α] [DecidableEq β]
    (f : α → Option β) (l : List α) (r : α) (v : β)
    (hcount : l.count r = 1) (hfr : f r = some v)
    (hothers : ∀ x ∈ l, x ≠ r → f x ≠ some v) :
    (l.filterMap f).count v = 1 := by
  induction l with
  | nil => simp at hcount
  | cons x xs ih =>
    by_cases hx : x = r
    · subst hx
      rw [List.count_cons_self] at hcount
      have hzero : xs.count x = 0 := by omega
      have hnomem : v ∉ xs.filterMap f := by
        intro hmem
        obtain ⟨y, hy, hfy⟩ := List.mem_filterMap.mp hmem
        have hyne : y ≠ x := by
          intro hcon
          subst hcon
          exact absurd (List.count_pos_iff.mpr hy) (by omega)
        exact hothers y (List.mem_cons_of_mem x hy) hyne hfy
      rw [List.filterMap_cons_some hfr, List.count_cons_self,
        List.count_eq_zero.mpr hnomem]
    · have hcount' : xs.count r = 1 := by
        rw [List.count_cons_of_ne (Ne.symm hx)] at hcount
        exact hcount
      have hothers' : ∀ y ∈ xs, y ≠ r → f y ≠ some v :=
        fun y hy hne => hothers y (List.mem_cons_of_mem x hy) hne
      cases hfx : f x with
      | none => rw [List.filterMap_cons_none hfx]; exact ih hcount' hothers'
      | some b =>
        have hbv : b ≠ v := by
          intro hcon
          subst hcon
          exact hothers x (List.mem_cons_self x xs) hx hfx
        rw [List.filterMap_cons_some hfx,
          List.count_cons_of_ne (Ne.symm hbv)]
        exact ih hcount' hothers'

/-- Claim C2, for the status and project passes: for a processed record whose
truthy name fails to resolve (and under the hypothesis that no record of the
pass has a templated match in the working text, so that the pass performs no
substitution at all), the working text is returned unchanged, the appended
ledger is exactly one record per processed record, and exactly one appended
record carries this record's name and server id with a null cloud id. -/
theorem claim_C2_missing_resolution
    (res : Str → Option Str) (tpl : List Str) (sh : Sheet) (data : Str)
    (ledger : List MappingRecord) (r : Nat) (name : Str)
    (hcount : (selectedRows sh).count r = 1)
    (hname : cellB sh r = some name) (hne : name.isEmpty = false)
    (hres : res name = none)
    (hnm : ∀ x ∈ selectedRows sh, rowNoMatchB res tpl sh data x = true)
    (huniq : ∀ x ∈ selectedRows sh, x ≠ r →
      ¬(cellB sh x = some name ∧ rowId sh x = rowId sh r)) :
    ((replaceStatus res tpl sh data ledger).1 = data ∧
     (replaceStatus res tpl sh data ledger).2
       = ledger ++ (selectedRows sh).filterMap (rowRec (lit "status") res sh) ∧
     (replaceStatus res tpl sh data ledger).2.count
         ⟨lit "status", some name, rowId sh r, none⟩
       = ledger.count ⟨lit "status", some name, rowId sh r, none⟩ + 1) ∧
    ((replaceProject res tpl sh data ledger).1 = data ∧
     (replaceProject res tpl sh data ledger).2
       = ledger ++ (selectedRows sh).filterMap (rowRec (lit "project") res sh) ∧
     (replaceProject res tpl sh data ledger).2.count
         ⟨lit "project", some name, rowId sh r, none⟩
       = ledger.count ⟨lit "project", some name, rowId sh r, none⟩ + 1) := by
  have hmain : ∀ ty : Str,
      (rowPass ty res tpl sh data ledger).1 = data ∧
      (rowPass ty res tpl sh data ledger).2
        = ledger ++ (selectedRows sh).filterMap (rowRec ty res sh) ∧
      (rowPass ty res tpl sh data ledger).2.count
          ⟨ty, some name, rowId sh r, none⟩
        = ledger.count ⟨ty, some name, rowId sh r, none⟩ + 1 := by
    intro ty
    refine ⟨rowFold_fst_of_noMatch ty res tpl sh data (selectedRows sh) hnm ledger,
      rowPass_snd ty res tpl sh data ledger, ?_⟩
    rw [rowPass_snd ty res tpl sh data ledger, List.count_append]
    have hfr : rowRec ty res sh r = some ⟨ty, some name, rowId sh r, none⟩ := by
      simp [rowRec, hname, hne, hres]
    have hothers : ∀ x ∈ selectedRows sh, x ≠ r →
        rowRec ty res sh x ≠ some ⟨ty, some name, rowId sh r, none⟩ := by
      intro x hx hxr hcon
      cases hB : cellB sh x with
      | none => simp [rowRec, hB] at hcon
      | some name2 =>
        by_cases hn2 : name2.isEmpty
        · simp [rowRec, hB, hn2] at hcon
        · simp only [rowRec, hB, hn2, Bool.false_eq_true, if_false,
            Option.some.injEq, MappingRecord.mk.injEq] at hcon
          exact huniq x hx hxr ⟨by rw [hB, hcon.2.1], hcon.2.2.1⟩
    rw [filterMap_count_single (rowRec ty res sh) (selectedRows sh) r
      ⟨ty, some name, rowId sh r, none⟩ hcount hfr hothers]
  exact ⟨hmain (lit "status"), hmain (lit "project")⟩

/-- Instantiation of claim C2: the record `10100 ↦ Done` fails to resolve,
the text contains the raw id `10100` without any template, and the pass
leaves the text unchanged while appending exactly one missing record. -/
theorem claim_C2_witness :
    (replaceStatus (fun _ => none) [lit "T"]
      [(some (lit "id"), some (lit "pname")),
       (some (lit "10100"), some (lit "Done"))]
      (lit "x10100y") []).1 = lit "x10100y" ∧
    (replaceStatus (fun _ => none) [lit "T"]
      [(some (lit "id"), some (lit "pname")),
       (some (lit "10100"), some (lit "Done"))]
      (lit "x10100y") []).2.count
        ⟨lit "status", some (lit "Done"), lit "10100", none⟩ = 1 := by
  have h := (claim_C2_missing_resolution (fun _ => none) [lit "T"]
    [(some (lit "id"), some (lit "pname")),
     (some (lit "10100"), some (lit "Done"))]
    (lit "x10100y") [] 2 (lit "Done")
    (by decide) (by decide) (by decide) rfl (by decide) (by decide)).1
  exact ⟨h.1, by simpa using h.2.2⟩

/-! ### Claim C6 -/

/-- Counterexample to claim C6 as stated: in the user pass, the key `bob`
occurs in the text, its email resolves but the account lookup fails, and no
replacement template matches — yet a ledger entry (with a null cloud id) is
appended, where the claim requires an entry only when a template matched. -/
theorem claim_C6_counterexample :
    replaceUsers [(some (lit "bob"), some (lit "bob@x"))] (fun _ => none)
        [lit "T"] (lit "bob") []
      = (lit "bob", [⟨lit "user", some (lit "bob@x"), lit "bob", none⟩]) ∧
    occursIn (lit "T" ++ lit "bob" ++ [qc]) (lit "bob") = false := by
  decide

theorem userTemplFold_of_noocc (u acct : Str) (data : Str) (tpl : List Str)
    (h : ∀ t ∈ tpl, occursIn (t ++ u ++ [qc]) data = false) :
    tpl.foldl (fun dr t =>
      let fromStr := t ++ u ++ [qc]
      if occursIn fromStr dr.1 then
        (pyReplace dr.1 fromStr (t ++ acct ++ [qc]), true)
      else dr) (data, false) = (data, false) := by
  induction tpl with
  | nil => rfl
  | cons t ts ih =>
    have ht := h t (List.mem_cons_self t ts)
    simp only [List.foldl_cons, ht, Bool.false_eq_true, if_false]
    exact ih fun t' ht' => h t' (List.mem_cons_of_mem t ht')

/-- Claim C6 as amended: each of the status, priority, issue-type and project
passes appends exactly one ledger record per processed record with a truthy
name — independently of the working text, hence regardless of whether a cloud
id was found or any template matched; in the user pass, when the account
resolves, an entry is appended only if some template matched, but when the
email resolves and the account lookup fails, an entry with a null cloud id is
appended regardless of any match. -/
theorem claim_C6_ledger_policy (res : Str → Option Str) (tpl : List Str)
    (sh : Sheet) (data : Str) (ledger : List MappingRecord)
    (acct : Str → Option Str) (u : Str) (email : Str) :
    ((replaceStatus res tpl sh data ledger).2
       = ledger ++ (selectedRows sh).filterMap (rowRec (lit "status") res sh)) ∧
    ((replacePriority res tpl sh data ledger).2
       = ledger ++ (selectedRows sh).filterMap (rowRec (lit "priority") res sh)) ∧
    ((replaceIssueType res tpl sh data ledger).2
       = ledger ++ (selectedRows sh).filterMap (rowRec (lit "issuetype") res sh)) ∧
    ((replaceProject res tpl sh data ledger).2
       = ledger ++ (selectedRows sh).filterMap (rowRec (lit "project") res sh)) ∧
    (usersInJson sh data = [u] →
     getEmailforUserInExcel sh u = some email →
     email.isEmpty = false →
     ((acct email = none →
        replaceUsers sh acct tpl data ledger
          = (data, ledger ++ [⟨lit "user", some email, u, none⟩])) ∧
      (∀ a, acct email = some a →
        (∀ t ∈ tpl, occursIn (t ++ u ++ [qc]) data = false) →
        replaceUsers sh acct tpl data ledger = (data, ledger)))) := by
  refine ⟨rowPass_snd _ res tpl sh data ledger,
    rowPass_snd _ res tpl sh data ledger,
    rowPass_snd _ res tpl sh data ledger,
    rowPass_snd _ res tpl sh data ledger, ?_⟩
  intro husers hemail hne
  have hpass : replaceUsers sh acct tpl data ledger
      = userStep sh acct tpl (data, ledger) u := by
    rw [replaceUsers, husers]
    rfl
  constructor
  · intro hacct
    rw [hpass]
    simp [userStep, hemail, hne, hacct]
  · intro a hacct hnoocc
    rw [hpass]
    simp only [userStep, hemail, hne, Bool.false_eq_true, if_false, hacct,
      userTemplFold_of_noocc u a data tpl hnoocc]

/-- Instantiation of the amended claim C6: with a resolvable account and no
matching template the user pass appends nothing. -/
theorem claim_C6_witness :
    replaceUsers [(some (lit "bob"), some (lit "bob@x"))]
        (fun e => if e = lit "bob@x" then some (lit "ACC") else none)
        [lit "T"] (lit "bob") [] = (lit "bob", []) := by
  have h := ((claim_C6_ledger_policy (fun _ => none) [lit "T"]
    [(some (lit "bob"), some (lit "bob@x"))] (lit "bob") []
    (fun e => if e = lit "bob@x" then some (lit "ACC") else none)
    (lit "bob") (lit "bob@x")).2.2.2.2
    (by decide) (by decide) (by decide)).2 (lit "ACC") (by decide) (by decide)
  exact h

/-! ### Claim C7 -/

/-- Counterexample to claim C7 as stated: one legacy user `JIRAUSER1` whose
email and account both resolve, whose key occurs in the text but never
followed by a closing quote.  The legacy pass appends a ledger record for it,
while the user pass run with the single template `identifier + '"'` (the
empty context prefix) appends none — the two passes are not identical. -/
theorem claim_C7_counterexample :
    replaceJIRAUSERUsers [(some (lit "JIRAUSER1"), some (lit "e"))]
        (fun e => if e = lit "e" then some (lit "ACC") else none)
        (lit "JIRAUSER1") []
      = (lit "JIRAUSER1",
         [⟨lit "user", some (lit "e"), lit "JIRAUSER1", some (lit "ACC")⟩]) ∧
    replaceUsers [(some (lit "JIRAUSER1"), some (lit "e"))]
        (fun e => if e = lit "e" then some (lit "ACC") else none)
        [([] : Str)] (lit "JIRAUSER1") []
      = (lit "JIRAUSER1", []) := by
  decide

/-- The shape hypothesis under which the two user passes see the same keys:
every non-blank stripped column-A value of the users sheet carries the fixed
`JIRAUSER` prefix. -/
def jiraShapeB (c : Cell) : Bool :=
  match c.1 with
  | some v => (pyStrip v).isEmpty || leadsWith (lit "JIRAUSER") (pyStrip v)
  | none => true

theorem usersInSheet_eq_jira (sh : Sheet)
    (hall : ∀ c ∈ sh, jiraShapeB c = true) :
    usersInSheet sh = jiraUsersInSheet sh := by
  unfold usersInSheet jiraUsersInSheet
  refine List.filterMap_congr ?_
  intro c hc
  have hcs := hall c hc
  cases hA : c.1 with
  | none => simp
  | some v =>
    by_cases hv : v.isEmpty
    · simp [hv]
    · by_cases hst : (pyStrip v).isEmpty
      · have hnl : leadsWith (lit "JIRAUSER") (pyStrip v) = false := by
          have hnil : pyStrip v = [] := by simpa [List.isEmpty_iff] using hst
          rw [hnil]
          decide
        simp [hv, hst, hnl]
      · have hl : leadsWith (lit "JIRAUSER") (pyStrip v) = true := by
          have := hcs
          simp only [jiraShapeB, hA, Bool.or_eq_true] at this
          rcases this with h | h
          · exact absurd h (by simp [hst])
          · exact h
        simp [hv, hst, hl]

theorem userStep_vs_jirauserStep (sh : Sheet) (acct : Str → Option Str)
    (u : Str) (d : Str) (l8 l9 : List MappingRecord)
    (hsub : List.Sublist l8 l9) :
    (userStep sh acct [([] : Str)] (d, l8) u).1
      = (jirauserStep sh acct (d, l9) u).1 ∧
    List.Sublist (userStep sh acct [([] : Str)] (d, l8) u).2
      (jirauserStep sh acct (d, l9) u).2 := by
  cases hem : getEmailforUserInExcel sh u with
  | none => exact ⟨by simp [userStep, jirauserStep, hem], by
      simpa [userStep, jirauserStep, hem] using hsub⟩
  | some email =>
    by_cases hne : email.isEmpty
    · exact ⟨by simp [userStep, jirauserStep, hem, hne], by
        simpa [userStep, jirauserStep, hem, hne] using hsub⟩
    · cases hacct : acct email with
      | none =>
        refine ⟨by simp [userStep, jirauserStep, hem, hne, hacct], ?_⟩
        simp only [userStep, jirauserStep, hem, hne, Bool.false_eq_true,
          if_false, hacct]
        exact hsub.append (List.Sublist.refl _)
      | some a =>
        by_cases hocc : occursIn (u ++ [qc]) d
        · refine ⟨?_, ?_⟩
          · simp [userStep, jirauserStep, hem, hne, hacct, hocc]
          · simp only [userStep, jirauserStep, hem, hne, Bool.false_eq_true,
              if_false, hacct, List.foldl_cons, List.foldl_nil,
              List.nil_append, hocc, if_true]
            exact hsub.append (List.Sublist.refl _)
        · refine ⟨?_, ?_⟩
          · simp [userStep, jirauserStep, hem, hne, hacct, hocc]
          · simp only [userStep, jirauserStep, hem, hne, Bool.false_eq_true,
              if_false, hacct, List.foldl_cons, List.foldl_nil,
              List.nil_append, hocc, if_false]
            exact hsub.trans (List.sublist_append_left l9 _)

theorem userFold_vs_jiraFold (sh : Sheet) (acct : Str → Option Str)
    (users : List Str) :
    ∀ (d : Str) (l8 l9 : List MappingRecord), List.Sublist l8 l9 →
      ((users.foldl (userStep sh acct [([] : Str)]) (d, l8)).1
        = (users.foldl (jirauserStep sh acct) (d, l9)).1) ∧
      List.Sublist (users.foldl (userStep sh acct [([] : Str)]) (d, l8)).2
        (users.foldl (jirauserStep sh acct) (d, l9)).2 := by
  induction users with
  | nil => intro d l8 l9 hsub; exact ⟨rfl, hsub⟩
  | cons u us ih =>
    intro d l8 l9 hsub
    obtain ⟨hfst, hsnd⟩ := userStep_vs_jirauserStep sh acct u d l8 l9 hsub
    simp only [List.foldl_cons]
    have h8 : userStep sh acct [([] : Str)] (d, l8) u
        = ((userStep sh acct [([] : Str)] (d, l8) u).1,
           (userStep sh acct [([] : Str)] (d, l8) u).2) := rfl
    have h9 : jirauserStep sh acct (d, l9) u
        = ((jirauserStep sh acct (d, l9) u).1,
           (jirauserStep sh acct (d, l9) u).2) := rfl
    rw [h8, h9, hfst]
    exact ih (jirauserStep sh acct (d, l9) u).1
      (userStep sh acct [([] : Str)] (d, l8) u).2
      (jirauserStep sh acct (d, l9) u).2 hsnd

/-- Claim C7 as amended: on a users sheet whose keys all have the legacy
`JIRAUSER` shape, the legacy pass produces the same working text as the user
pass run with the single template `identifier + '"'` (empty context prefix),
and the user pass's appended ledger is a sublist of the legacy pass's — the
legacy pass additionally appends a record when the account resolves but the
template never matches.  A legacy key with no email in the store leaves the
text unchanged and appends no ledger row. -/
theorem claim_C7_legacy_pass (sh : Sheet) (acct : Str → Option Str)
    (data : Str) (ledger : List MappingRecord) (u : Str)
    (hall : ∀ c ∈ sh, jiraShapeB c = true) :
    ((replaceJIRAUSERUsers sh acct data ledger).1
       = (replaceUsers sh acct [([] : Str)] data ledger).1) ∧
    List.Sublist (replaceUsers sh acct [([] : Str)] data ledger).2
      (replaceJIRAUSERUsers sh acct data ledger).2 ∧
    (jiraUsersInJson sh data = [u] → getEmailforUserInExcel sh u = none →
      replaceJIRAUSERUsers sh acct data ledger = (data, ledger)) := by
  have hlist : usersInJson sh data = jiraUsersInJson sh data := by
    unfold usersInJson jiraUsersInJson
    rw [usersInSheet_eq_jira sh hall]
  have hmain := userFold_vs_jiraFold sh acct (jiraUsersInJson sh data) data
    ledger ledger (List.Sublist.refl ledger)
  refine ⟨?_, ?_, ?_⟩
  · rw [replaceJIRAUSERUsers, replaceUsers, hlist]
    exact hmain.1.symm
  · rw [replaceJIRAUSERUsers, replaceUsers, hlist]
    exact hmain.2
  · intro husers hemail
    rw [replaceJIRAUSERUsers, husers]
    simp [jirauserStep, hemail]

/-- Instantiation of the amended claim C7 at a concrete store and text. -/
theorem claim_C7_witness :
    (replaceJIRAUSERUsers [(some (lit "JIRAUSER1"), some (lit "e"))]
        (fun e => if e = lit "e" then some (lit "ACC") else none)
        (lit "JIRAUSER1\" x") []).1
      = (replaceUsers [(some (lit "JIRAUSER1"), some (lit "e"))]
          (fun e => if e = lit "e" then some (lit "ACC") else none)
          [([] : Str)] (lit "JIRAUSER1\" x") []).1 := by
  have h := (claim_C7_legacy_pass [(some (lit "JIRAUSER1"), some (lit "e"))]
    (fun e => if e = lit "e" then some (lit "ACC") else none)
    (lit "JIRAUSER1\" x") [] (lit "JIRAUSER1") (by decide)).1
  exact h

/-! ### Claim C5 -/

/-- Claim C5, scoped to a text with a single `customfield_` occurrence at
position `p`: the pass slices the prefix plus its five-character suffix out
of the text, looks the id up in the store, and (a) with no store entry it
changes nothing and appends no ledger record, (b) with a store entry whose
name finds no cloud id it changes nothing and appends one record with a null
cloud id, (c) with a resolved cloud id it replaces the literal occurrence and
appends one record with that id. -/
theorem claim_C5_customfield_pass (sh : Sheet) (res : Str → Option Str)
    (data : Str) (ledger : List MappingRecord) (p : Nat)
    (hocc : findOccs cfPre data 0 = [p]) :
    (getCustomFieldNameInExcel sh ((data.drop p).take (cfPre.length + 5)) = none →
      replaceCustomFields sh res data ledger = (data, ledger)) ∧
    (∀ nm, getCustomFieldNameInExcel sh ((data.drop p).take (cfPre.length + 5))
        = some nm → nm.isEmpty = false → res nm = none →
      replaceCustomFields sh res data ledger
        = (data, ledger ++ [⟨lit "customfield", some nm,
            (data.drop p).take (cfPre.length + 5), none⟩])) ∧
    (∀ nm nid, getCustomFieldNameInExcel sh ((data.drop p).take (cfPre.length + 5))
        = some nm → nm.isEmpty = false → res nm = some nid →
      replaceCustomFields sh res data ledger
        = (pyReplace data ((data.drop p).take (cfPre.length + 5)) nid,
           ledger ++ [⟨lit "customfield", some nm,
             (data.drop p).take (cfPre.length + 5), some nid⟩])) := by
  have hpass : replaceCustomFields sh res data ledger
      = cfStep sh res (data, ledger) p := by
    rw [replaceCustomFields, hocc]
    rfl
  refine ⟨?_, ?_, ?_⟩
  · intro hname
    rw [hpass]
    simp [cfStep, hname]
  · intro nm hname hne hres
    rw [hpass]
    simp [cfStep, hname, hne, hres]
  · intro nm nid hname hne hres
    rw [hpass]
    simp [cfStep, hname, hne, hres]

/-- Instantiation of claim C5: `customfield_10050` maps to `Severity` in the
store and resolves to `customfield_10099` in the cloud. -/
theorem claim_C5_witness :
    replaceCustomFields [(some (lit "10050"), some (lit "Severity"))]
        (fun nm => if nm = lit "Severity" then some (lit "customfield_10099")
                   else none)
        (lit "a customfield_10050 b") []
      = (pyReplace (lit "a customfield_10050 b") (lit "customfield_10050")
          (lit "customfield_10099"),
         [⟨lit "customfield", some (lit "Severity"), lit "customfield_10050",
           some (lit "customfield_10099")⟩]) := by
  have h := (claim_C5_customfield_pass
    [(some (lit "10050"), some (lit "Severity"))]
    (fun nm => if nm = lit "Severity" then some (lit "customfield_10099")
               else none)
    (lit "a customfield_10050 b") [] 2 (by decide)).2.2
    (lit "Severity") (lit "customfield_10099") (by decide) (by decide)
    (by decide)
  exact h

/-! ### Claim C4 -/

/-- Display name looked up for one id of a set-membership condition,
depending on the condition's field type. -/
def oneOfName (statusSh issuetypeSh prioritySh : Sheet) (fieldType : Str)
    (old_id : Str) : Option Str :=
  if fieldType = lit "status" then getNameByIdInExcel statusSh old_id
  else if fieldType = lit "issuetype" then getNameByIdInExcel issuetypeSh old_id
  else if fieldType = lit "priority" then getNameByIdInExcel prioritySh old_id
  else none

/-- Cloud id resolved for one id of a set-membership condition: the resolver
of the matching kind applied to the display name, guarded by the name's
truthiness. -/
def oneOfCloudId (statusSh issuetypeSh prioritySh : Sheet)
    (resS resI resP : Str → Option Str) (fieldType : Str) (old_id : Str) :
    Option Str :=
  match oneOfName statusSh issuetypeSh prioritySh fieldType old_id with
  | some n =>
    if n.isEmpty then none
    else if fieldType = lit "status" then resS n
    else if fieldType = lit "issuetype" then resI n
    else if fieldType = lit "priority" then resP n
    else none
  | none => none

/-- Contribution of one encoded id to the rewritten array. -/
def oneOfResolve (statusSh issuetypeSh prioritySh : Sheet)
    (resS resI resP : Str → Option Str) (fieldType : Str) (i : Str) :
    Option Str :=
  if (pyStrip i).isEmpty then none
  else oneOfCloudId statusSh issuetypeSh prioritySh resS resI resP fieldType
    (pyStrip i)

/-- Contribution of one encoded id to the ledger: a record exactly when the
display name was found or a cloud id was found. -/
def oneOfRec (statusSh issuetypeSh prioritySh : Sheet)
    (resS resI resP : Str → Option Str) (fieldType : Str) (i : Str) :
    Option MappingRecord :=
  if (pyStrip i).isEmpty then none
  else
    let name := oneOfName statusSh issuetypeSh prioritySh fieldType (pyStrip i)
    let new_id := oneOfCloudId statusSh issuetypeSh prioritySh resS resI resP
      fieldType (pyStrip i)
    if truthy name || !new_id.isNone then
      some ⟨fieldType, name, pyStrip i, new_id⟩
    else none

theorem oneOfIdStep_eq (statusSh issuetypeSh prioritySh : Sheet)
    (resS resI resP : Str → Option Str) (fieldType : Str)
    (st : List Str × List MappingRecord) (i : Str) :
    oneOfIdStep statusSh issuetypeSh prioritySh resS resI resP fieldType st i
      = (st.1 ++ (oneOfResolve statusSh issuetypeSh prioritySh resS resI resP
            fieldType i).toList,
         st.2 ++ (oneOfRec statusSh issuetypeSh prioritySh resS resI resP
            fieldType i).toList) := by
  by_cases hempty : (pyStrip i).isEmpty
  · simp [oneOfIdStep, oneOfResolve, oneOfRec, hempty]
  · have hpair :
        (if fieldType = lit "status" then
          let name := getNameByIdInExcel statusSh (pyStrip i)
          ((name, match name with
                 | some n => if n.isEmpty then none else resS n
                 | none => none) : Option Str × Option Str)
        else if fieldType = lit "issuetype" then
          let name := getNameByIdInExcel issuetypeSh (pyStrip i)
          (name, match name with
                 | some n => if n.isEmpty then none else resI n
                 | none => none)
        else if fieldType = lit "priority" then
          let name := getNameByIdInExcel prioritySh (pyStrip i)
          (name, match name with
                 | some n => if n.isEmpty then none else resP n
                 | none => none)
        else (none, none))
        = (oneOfName statusSh issuetypeSh prioritySh fieldType (pyStrip i),
           oneOfCloudId statusSh issuetypeSh prioritySh resS resI resP
             fieldType (pyStrip i)) := by
      by_cases hS : fieldType = lit "status"
      · cases hn : getNameByIdInExcel statusSh (pyStrip i) <;>
          simp [oneOfName, oneOfCloudId, hS, hn]
      · by_cases hI : fieldType = lit "issuetype"
        · cases hn : getNameByIdInExcel issuetypeSh (pyStrip i) <;>
            simp [oneOfName, oneOfCloudId, hS, hI, hn,
              show lit "issuetype" ≠ lit "status" from by decide]
        · by_cases hP : fieldType = lit "priority"
          · cases hn : getNameByIdInExcel prioritySh (pyStrip i) <;>
              simp [oneOfName, oneOfCloudId, hS, hI, hP, hn,
                show lit "priority" ≠ lit "status" from by decide,
                show lit "priority" ≠ lit "issuetype" from by decide]
          · simp [oneOfName, oneOfCloudId, hS, hI, hP]
    simp only [oneOfIdStep, hempty, Bool.false_eq_true, if_false, hpair,
      oneOfResolve, oneOfRec]
    cases hcid : oneOfCloudId statusSh issuetypeSh prioritySh resS resI resP
        fieldType (pyStrip i) with
    | some nid =>
      by_cases happ : truthy (oneOfName statusSh issuetypeSh prioritySh
          fieldType (pyStrip i))
      · simp [happ, hcid]
      · simp [happ, hcid]
    | none =>
      by_cases happ : truthy (oneOfName statusSh issuetypeSh prioritySh
          fieldType (pyStrip i))
      · simp [happ, hcid]
      · simp [happ, hcid]

theorem oneOfFold_eq (statusSh issuetypeSh prioritySh : Sheet)
    (resS resI resP : Str → Option Str) (fieldType : Str) (l : List Str) :
    ∀ (acc : List Str) (led : List MappingRecord),
      l.foldl (oneOfIdStep statusSh issuetypeSh prioritySh resS resI resP
        fieldType) (acc, led)
      = (acc ++ l.filterMap (oneOfResolve statusSh issuetypeSh prioritySh
            resS resI resP fieldType),
         led ++ l.filterMap (oneOfRec statusSh issuetypeSh prioritySh
            resS resI resP fieldType)) := by
  induction l with
  | nil => intro acc led; simp
  | cons i is ih =>
    intro acc led
    simp only [List.foldl_cons, oneOfIdStep_eq]
    rw [ih]
    cases hres : oneOfResolve statusSh issuetypeSh prioritySh resS resI resP
        fieldType i <;>
      cases hrec : oneOfRec statusSh issuetypeSh prioritySh resS resI resP
          fieldType i <;>
        simp [List.filterMap_cons, hres, hrec]

/-- Claim C4: the per-match body of the set-membership rewrite replaces the
rebuilt encoded array by the array of exactly the resolved cloud ids in the
original relative order (ids that fail the strip, the store lookup or the
cloud resolution are omitted), and appends one ledger record per id exactly
when a display name was found or a cloud id was found. -/
theorem claim_C4_one_of_rewrite (statusSh issuetypeSh prioritySh : Sheet)
    (resS resI resP : Str → Option Str) (fieldType : Str)
    (id_list : List Str) (data : Str) (ledger : List MappingRecord) :
    (oneOfMatchBody statusSh issuetypeSh prioritySh resS resI resP fieldType
        id_list data ledger
      = ((if occursIn (valueLit id_list) data then
            pyReplace data (valueLit id_list)
              (valueLit (id_list.filterMap (oneOfResolve statusSh issuetypeSh
                prioritySh resS resI resP fieldType)))
          else data),
         ledger ++ id_list.filterMap (oneOfRec statusSh issuetypeSh prioritySh
           resS resI resP fieldType))) ∧
    (∀ i, (oneOfRec statusSh issuetypeSh prioritySh resS resI resP fieldType
        i).isSome = true ↔
      ((pyStrip i).isEmpty = false ∧
       (truthy (oneOfName statusSh issuetypeSh prioritySh fieldType
          (pyStrip i)) = true ∨
        (oneOfCloudId statusSh issuetypeSh prioritySh resS resI resP fieldType
          (pyStrip i)).isSome = true))) := by
  constructor
  · rw [oneOfMatchBody, oneOfFold_eq]
    simp
  · intro i
    unfold oneOfRec
    by_cases hempty : (pyStrip i).isEmpty
    · simp [hempty]
    · by_cases htr : truthy (oneOfName statusSh issuetypeSh prioritySh
          fieldType (pyStrip i))
      · simp [hempty, htr]
      · cases hcid : oneOfCloudId statusSh issuetypeSh prioritySh resS resI
            resP fieldType (pyStrip i) with
        | some nid => simp [hempty, htr, hcid]
        | none => simp [hempty, htr, hcid]

/-- Instantiation of claim C4 at the spec's example: encoded ids 1, 2, 3
where id 2 has no display name in the store; ledger records are appended for
ids 1 and 3 only, in order. -/
theorem claim_C4_witness :
    (oneOfMatchBody
      [(some (lit "1"), some (lit "Done")), (some (lit "3"), some (lit "Open"))]
      [] []
      (fun n => if n = lit "Done" then some (lit "10001")
                else if n = lit "Open" then some (lit "10003") else none)
      (fun _ => none) (fun _ => none) (lit "status")
      [lit "1", lit "2", lit "3"] (lit "x") []).2
    = [⟨lit "status", some (lit "Done"), lit "1", some (lit "10001")⟩,
       ⟨lit "status", some (lit "Open"), lit "3", some (lit "10003")⟩] := by
  have h := (claim_C4_one_of_rewrite
    [(some (lit "1"), some (lit "Done")), (some (lit "3"), some (lit "Open"))]
    [] []
    (fun n => if n = lit "Done" then some (lit "10001")
              else if n = lit "Open" then some (lit "10003") else none)
    (fun _ => none) (fun _ => none) (lit "status")
    [lit "1", lit "2", lit "3"] (lit "x") []).1
  calc (oneOfMatchBody
      [(some (lit "1"), some (lit "Done")), (some (lit "3"), some (lit "Open"))]
      [] []
      (fun n => if n = lit "Done" then some (lit "10001")
                else if n = lit "Open" then some (lit "10003") else none)
      (fun _ => none) (fun _ => none) (lit "status")
      [lit "1", lit "2", lit "3"] (lit "x") []).2
      = [] ++ List.filterMap (oneOfRec
          [(some (lit "1"), some (lit "Done")),
           (some (lit "3"), some (lit "Open"))]
          [] []
          (fun n => if n = lit "Done" then some (lit "10001")
                    else if n = lit "Open" then some (lit "10003") else none)
          (fun _ => none) (fun _ => none) (lit "status"))
          [lit "1", lit "2", lit "3"] := congrArg Prod.snd h
    _ = [⟨lit "status", some (lit "Done"), lit "1", some (lit "10001")⟩,
         ⟨lit "status", some (lit "Open"), lit "3", some (lit "10003")⟩] := by
        decide

/-! ### Claim C10 -/

/-- `s` ends with `pat`. -/
def trailsWith (pat s : Str) : Bool :=
  leadsWith pat.reverse s.reverse

theorem ne_append_of_ne_nil {f s : Str} (h : s ≠ []) : f ≠ f ++ s := by
  intro hcon
  have hlen := congrArg List.length hcon
  simp only [List.length_append] at hlen
  have : s.length = 0 := by omega
  exact h (List.length_eq_zero.mp this)

theorem json_ne_mappingResult {f : Str}
    (hjson : trailsWith (lit ".json") f = true) : f ≠ mappingResultName := by
  intro hcon
  rw [hcon] at hjson
  exact absurd hjson (by decide)

/-- Counterexample to claim C10 as stated: an input document named like a
per-rule split file — `1-123-modified-for-cloud.json`, e.g. the output of a
previous split run, which ends in `.json` and is therefore selectable — is
among the files the run writes when splitting is enabled and the enabled rule
has id `123`: step 12 opens exactly this name for writing and overwrites the
input. -/
theorem claim_C10_counterexample :
    lit "1-123-modified-for-cloud.json"
      ∈ mainWrites (lit "1-123-modified-for-cloud.json") true
        [⟨some (lit "ENABLED"), some (lit "123"), some (lit "r")⟩] ∧
    trailsWith (lit ".json") (lit "1-123-modified-for-cloud.json") = true := by
  decide

/-- Claim C10 as amended: the only way the selected input document can be
written is the per-rule split of step 12, when splitting is enabled and the
input's name coincides with a generated split-file name
`i-ruleId-modified-for-cloud.json`; whenever the input name differs from
every split-file name it is never written.  The disable filter writes the
backup and the working copy under new names, every substitution pass
rewrites only the working copy, every written file is the backup, the
working copy, the final pretty file, a split file, or the mapping report
workbook, and the input is read. -/
theorem claim_C10_file_frame (f : Str) (split : Bool) (rules : List Rule)
    (hjson : trailsWith (lit ".json") f = true) :
    (f ∈ mainWrites f split rules → split = true ∧ f ∈ splitNames rules) ∧
    ((∀ s ∈ splitNames rules, s ≠ f) → f ∉ mainWrites f split rules) ∧
    backupName f ≠ f ∧ workingName f ≠ f ∧ prettyName f ≠ f ∧
    (∀ x ∈ mainWrites f split rules,
      x = backupName f ∨ x = workingName f ∨ x = prettyName f ∨
      x ∈ splitNames rules ∨ x = mappingResultName) ∧
    f ∈ mainReads f split := by
  have hb : backupName f ≠ f :=
    fun hcon => ne_append_of_ne_nil (by decide) hcon.symm
  have hw : workingName f ≠ f :=
    fun hcon => ne_append_of_ne_nil (by decide) hcon.symm
  have hp : prettyName f ≠ f :=
    fun hcon => ne_append_of_ne_nil (by decide) hcon.symm
  have hm : f ≠ mappingResultName := json_ne_mappingResult hjson
  have h1 : f ≠ backupName f := fun c => hb c.symm
  have h2 : f ≠ workingName f := fun c => hw c.symm
  have h3 : f ≠ prettyName f := fun c => hp c.symm
  refine ⟨?_, ?_, hb, hw, hp, ?_, ?_⟩
  · intro hmem
    by_cases hsp : split = true
    · refine ⟨hsp, ?_⟩
      simp [mainWrites, hsp] at hmem
      tauto
    · exfalso
      simp [mainWrites, hsp] at hmem
      tauto
  · intro hsplit hmem
    have h5 : f ∉ splitNames rules := fun hc => hsplit f hc rfl
    by_cases hsp : split = true
    · simp [mainWrites, hsp] at hmem
      tauto
    · simp [mainWrites, hsp] at hmem
      tauto
  · intro x hx
    by_cases hsp : split = true
    · simp only [mainWrites, hsp, if_true] at hx
      simp only [List.mem_append, List.mem_cons, List.not_mem_nil,
        or_false] at hx
      tauto
    · simp only [mainWrites, hsp, if_false, Bool.false_eq_true] at hx
      simp only [List.mem_append, List.mem_cons, List.not_mem_nil,
        or_false] at hx
      tauto
  · simp [mainReads]

/-- Instantiation of the amended claim C10 at a concrete run: the input
`rules.json` shares no name with the generated split file and is never
written, even with splitting enabled. -/
theorem claim_C10_witness :
    lit "rules.json" ∉ mainWrites (lit "rules.json") true
      [⟨some (lit "ENABLED"), some (lit "123"), some (lit "r")⟩] := by
  have h := (claim_C10_file_frame (lit "rules.json") true
    [⟨some (lit "ENABLED"), some (lit "123"), some (lit "r")⟩]
    (by decide)).2.1 (by decide)
  exact h

end Automig
